import Mathlib

/-!
Verification development for the flash_cards repository (src/index.js), a
single-document RAG HTTP service.  The JavaScript route handlers are shallowly
embedded as Lean functions: JSON values become an inductive type, JavaScript
truthiness and property access are modelled explicitly, the bracket-slice
extraction of a JSON array from model text follows the source's
indexOf/lastIndexOf/slice logic, and each route handler becomes a pure
function from the process state (the optional vector store) and the external
model's raw text to an HTTP response.  External collaborators (JSON.parse,
the PDF parser, the embedding provider) are modelled: JSON.parse as a
concrete recursive-descent parser over characters, provider calls as
function parameters returning Except values.
-/

/-- A JSON value as produced by JSON.parse.  Numbers are modelled as integers
(the claims under verification never depend on fractional values); object
fields are kept in insertion order with duplicate keys collapsed at parse
time, as JavaScript does. -/
inductive Json where
  | null : Json
  | bool : Bool → Json
  | num : Int → Json
  | str : String → Json
  | arr : List Json → Json
  | obj : List (String × Json) → Json

/-- JavaScript truthiness of a JSON value (undefined is handled separately as
Option.none by property lookup). -/
def truthy : Json → Bool
  | Json.null => false
  | Json.bool b => b
  | Json.num n => n != 0
  | Json.str s => s != ""
  | Json.arr _ => true
  | Json.obj _ => true

/-- Truthiness of a possibly-undefined value: undefined is falsy. -/
def truthyOpt : Option Json → Bool
  | none => false
  | some v => truthy v

/-- First-match lookup in an object's field list.  Parsed objects have
distinct keys (see insertKey), so first match is the JavaScript lookup. -/
def lookupFirst : List (String × Json) → String → Option Json
  | [], _ => none
  | (k', v) :: rest, k => if k' = k then some v else lookupFirst rest k

/-- JavaScript property access v.k for non-null v: objects look the key up,
primitives and arrays yield undefined for the property names used by the
source.  Access on null throws; callers model that case separately. -/
def jsGet (v : Json) (k : String) : Option Json :=
  match v with
  | Json.obj fields => lookupFirst fields k
  | _ => none

/-- Property access defaulting undefined to null (both are falsy and neither
is a string, which is all the validators observe about the default). -/
def jsGetD (v : Json) (k : String) : Json :=
  (jsGet v k).getD Json.null

/-- Whether a JSON value is null (the one value on which property access
throws a TypeError in the source's forEach validators). -/
def jsIsNull : Json → Bool
  | Json.null => true
  | _ => false

/-- typeof for a parsed JSON value (typeof null is "object" in JavaScript). -/
def typeofJs : Json → String
  | Json.null => "object"
  | Json.bool _ => "boolean"
  | Json.num _ => "number"
  | Json.str _ => "string"
  | Json.arr _ => "object"
  | Json.obj _ => "object"

/-- Object.keys: field names for an object, index strings for strings and
arrays, empty for other primitives. -/
def objectKeys : Json → List String
  | Json.obj l => l.map Prod.fst
  | Json.str s => (List.range s.length).map toString
  | Json.arr l => (List.range l.length).map toString
  | _ => []

/-- The double-quote character. -/
def dquoteC : Char := Char.ofNat 34

/-- The left-brace character. -/
def lbraceC : Char := Char.ofNat 123

/-- The right-brace character. -/
def rbraceC : Char := Char.ofNat 125

/-- The left-bracket character. -/
def lbrackC : Char := '['

/-- The right-bracket character. -/
def rbrackC : Char := ']'

/-- JSON insignificant whitespace (space, tab, line feed, carriage return). -/
def isJWs (c : Char) : Bool :=
  c = ' ' || c = Char.ofNat 9 || c = Char.ofNat 10 || c = Char.ofNat 13

/-- Skip JSON whitespace. -/
def skipWs (l : List Char) : List Char := l.dropWhile isJWs

/-- ASCII digit test. -/
def isDigit (c : Char) : Bool := '0' ≤ c && c ≤ '9'

/-- Accumulate a digit list into a natural number. -/
def digitsToNat : List Char → Nat → Nat
  | [], acc => acc
  | c :: cs, acc => digitsToNat cs (acc * 10 + (c.toNat - 48))

/-- Parse a JSON string literal body after the opening quote.  Modelled from
the spec: JSON.parse is an external builtin; the model covers the literal
forms its modelled inputs use (escape sequences are not modelled). -/
def pStrLit (l : List Char) : Option (Json × List Char) :=
  let content := l.takeWhile (fun c => c ≠ dquoteC)
  match l.dropWhile (fun c => c ≠ dquoteC) with
  | c :: rest => if c = dquoteC then some (Json.str (String.mk content), rest) else none
  | [] => none

/-- Parse a JSON number token (integer form). -/
def pNum (l : List Char) : Option (Json × List Char) :=
  match l with
  | [] => none
  | c :: rest =>
    if c = '-' then
      let ds := rest.takeWhile isDigit
      if ds = [] then none
      else some (Json.num (-(Int.ofNat (digitsToNat ds 0))), rest.dropWhile isDigit)
    else
      let ds := l.takeWhile isDigit
      if ds = [] then none
      else some (Json.num (Int.ofNat (digitsToNat ds 0)), l.dropWhile isDigit)

/-- Insert a key into an object field list as JavaScript object literals and
JSON.parse do: a duplicate key keeps its original position but takes the new
value, so parsed objects always have distinct keys. -/
def insertKey : List (String × Json) → String → Json → List (String × Json)
  | [], k, v => [(k, v)]
  | (k', v') :: rest, k, v =>
    if k' = k then (k', v) :: rest else (k', v') :: insertKey rest k v

mutual

/-- Modelled from the spec: JSON.parse (external builtin) as a fuel-indexed
recursive-descent parser for one JSON value, returning the value and the
unconsumed remainder. -/
def pV : Nat → List Char → Option (Json × List Char)
  | 0, _ => none
  | f + 1, l =>
    match skipWs l with
    | [] => none
    | c :: rest =>
      if c = lbrackC then
        match skipWs rest with
        | d :: rest2 => if d = rbrackC then some (Json.arr [], rest2) else pArrLoop f (skipWs rest) []
        | [] => none
      else if c = lbraceC then
        match skipWs rest with
        | d :: rest2 => if d = rbraceC then some (Json.obj [], rest2) else pObjLoop f (skipWs rest) []
        | [] => none
      else if c = dquoteC then pStrLit rest
      else if c = 't' then
        if (c :: rest).take 4 = ("true".data) then some (Json.bool true, (c :: rest).drop 4) else none
      else if c = 'f' then
        if (c :: rest).take 5 = ("false".data) then some (Json.bool false, (c :: rest).drop 5) else none
      else if c = 'n' then
        if (c :: rest).take 4 = ("null".data) then some (Json.null, (c :: rest).drop 4) else none
      else pNum (c :: rest)

/-- Array element loop of the JSON.parse model. -/
def pArrLoop : Nat → List Char → List Json → Option (Json × List Char)
  | 0, _, _ => none
  | f + 1, l, acc =>
    match pV f l with
    | none => none
    | some (v, rest) =>
      match skipWs rest with
      | c :: rest2 =>
        if c = ',' then pArrLoop f rest2 (acc ++ [v])
        else if c = rbrackC then some (Json.arr (acc ++ [v]), rest2)
        else none
      | [] => none

/-- Object member loop of the JSON.parse model. -/
def pObjLoop : Nat → List Char → List (String × Json) → Option (Json × List Char)
  | 0, _, _ => none
  | f + 1, l, acc =>
    match skipWs l with
    | [] => none
    | c :: rest =>
      if c = dquoteC then
        match pStrLit rest with
        | some (Json.str k, rest2) =>
          match skipWs rest2 with
          | d :: rest3 =>
            if d = ':' then
              match pV f rest3 with
              | some (v, rest4) =>
                match skipWs rest4 with
                | e :: rest5 =>
                  if e = ',' then pObjLoop f rest5 (insertKey acc k v)
                  else if e = rbraceC then some (Json.obj (insertKey acc k v), rest5)
                  else none
                | [] => none
              | none => none
            else none
          | [] => none
        | _ => none
      else none

end

/-- Modelled from the spec: the external JSON.parse applied to a whole string,
which succeeds only when the input is exactly one JSON value followed by
whitespace. -/
def parseTop (l : List Char) : Option Json :=
  match pV (2 * l.length + 4) l with
  | some (v, rest) => if skipWs rest = [] then some v else none
  | none => none

mutual

/-- Render a JSON value back to text (used to build concrete model-response
texts for evaluation; not part of the source program). -/
def renderJson : Json → List Char
  | Json.null => "null".data
  | Json.bool true => "true".data
  | Json.bool false => "false".data
  | Json.num n => (toString n).data
  | Json.str s => dquoteC :: s.data ++ [dquoteC]
  | Json.arr l => lbrackC :: renderArr l ++ [rbrackC]
  | Json.obj l => lbraceC :: renderObj l ++ [rbraceC]

/-- Render the elements of a JSON array, comma separated. -/
def renderArr : List Json → List Char
  | [] => []
  | [v] => renderJson v
  | v :: rest => renderJson v ++ ',' :: renderArr rest

/-- Render the members of a JSON object, comma separated. -/
def renderObj : List (String × Json) → List Char
  | [] => []
  | [(k, v)] => dquoteC :: k.data ++ [dquoteC, ':'] ++ renderJson v
  | (k, v) :: rest => dquoteC :: k.data ++ [dquoteC, ':'] ++ renderJson v ++ ',' :: renderObj rest

end

/-- First index of a character in the text, as String.prototype.indexOf
(none encodes the -1 result). -/
def firstIdxOf (c : Char) : List Char → Option Nat
  | [] => none
  | x :: xs => if x = c then some 0 else (firstIdxOf c xs).map (· + 1)

/-- Last index of a character in the text, as String.prototype.lastIndexOf
(none encodes the -1 result). -/
def lastIdxOf (c : Char) : List Char → Option Nat
  | [] => none
  | x :: xs =>
    match lastIdxOf c xs with
    | some j => some (j + 1)
    | none => if x = c then some 0 else none

/-- String.prototype.slice with the ECMAScript clamping of possibly negative
start and end positions. -/
def jsSlice (l : List Char) (start stop : Int) : List Char :=
  let s : Nat := if start < 0 then (start + (l.length : Int)).toNat else min start.toNat l.length
  let e : Nat := if stop < 0 then (stop + (l.length : Int)).toNat else min stop.toNat l.length
  (l.drop s).take (e - s)

/-- jsonStart of the handlers: response.text.indexOf of the left bracket,
-1 when absent. -/
def jsonStartIdx (text : List Char) : Int :=
  match firstIdxOf lbrackC text with
  | some i => (i : Int)
  | none => -1

/-- jsonEnd of the handlers: response.text.lastIndexOf of the right bracket
plus one (0 when absent). -/
def jsonEndIdx (text : List Char) : Int :=
  (match lastIdxOf rbrackC text with
   | some j => (j : Int)
   | none => -1) + 1

/-- The jsonString slice the handlers cut out of the raw model text. -/
def bracketSlice (text : List Char) : List Char :=
  jsSlice text (jsonStartIdx text) (jsonEndIdx text)

/-- Errors raised inside a structured-extraction try block: a JSON.parse
SyntaxError, a non-array parse result, a validation error naming an element
index, or the TypeError raised by property access on a null element. -/
inductive ExErr where
  | parseErr : ExErr
  | notArray : String → ExErr
  | indexed : Nat → String → ExErr
  | typeErr : ExErr

/-- The message carried by an extraction error (parse and type errors carry
engine-dependent messages, modelled by fixed stand-ins). -/
def exErrMsg : ExErr → String
  | ExErr.parseErr => "Unexpected token in JSON"
  | ExErr.notArray m => m
  | ExErr.indexed _ m => m
  | ExErr.typeErr => "Cannot read properties of null"

/-- The flashcard element check of src/index.js lines 147-151: JavaScript
truthiness of card.question and card.answer, nothing more. -/
def flashOk (c : Json) : Bool :=
  truthyOpt (jsGet c "question") && truthyOpt (jsGet c "answer")

/-- The flashcards.forEach validation loop (src/index.js lines 147-151),
carrying the running element index. -/
def goFlash : Nat → List Json → Except ExErr Unit
  | _, [] => Except.ok ()
  | i, c :: cs =>
    if jsIsNull c then Except.error ExErr.typeErr
    else if flashOk c then goFlash (i + 1) cs
    else Except.error (ExErr.indexed i ("Flashcard " ++ toString i ++ " missing question or answer"))

/-- Validation of a parsed flashcards array. -/
def validateFlashcards (l : List Json) : Except ExErr Unit := goFlash 0 l

/-- The summaryPoints.forEach validation loop (src/index.js lines 212-216):
typeof point must be string. -/
def goSum : Nat → List Json → Except ExErr Unit
  | _, [] => Except.ok ()
  | i, p :: ps =>
    match p with
    | Json.str _ => goSum (i + 1) ps
    | _ => Except.error (ExErr.indexed i ("Summary point " ++ toString i ++ " is not a string"))

/-- Validation of a parsed summary array. -/
def validateSummary (l : List Json) : Except ExErr Unit := goSum 0 l

/-- The option letters of the MCQ validator. -/
def abcd : List String := ["A", "B", "C", "D"]

/-- Array.prototype.includes over the four option-letter strings: true only
for a string value equal to one of them (strict equality). -/
def isStrIn (v : Json) (ks : List String) : Bool :=
  match v with
  | Json.str s => ks.contains s
  | _ => false

/-- The MCQ required-fields truthiness check (src/index.js line 290). -/
def mcqFieldsOk (m : Json) : Bool :=
  truthyOpt (jsGet m "question") && truthyOpt (jsGet m "options") &&
    truthyOpt (jsGet m "correct_answer")

/-- The MCQ correct_answer membership check (src/index.js line 293). -/
def mcqCaOk (m : Json) : Bool :=
  isStrIn (jsGetD m "correct_answer") abcd

/-- The MCQ option-keys check (src/index.js lines 296-299): Object.keys of
mcq.options must have length four and every key must be one of A, B, C, D. -/
def mcqKeysOk (m : Json) : Bool :=
  (objectKeys (jsGetD m "options")).length == 4 &&
    (objectKeys (jsGetD m "options")).all (fun k => abcd.contains k)

/-- All checks the MCQ validator applies to one element. -/
def mcqOk (m : Json) : Bool :=
  !(jsIsNull m) && mcqFieldsOk m && mcqCaOk m && mcqKeysOk m

/-- The mcqs.forEach validation loop (src/index.js lines 289-300), carrying
the running element index. -/
def goMcq : Nat → List Json → Except ExErr Unit
  | _, [] => Except.ok ()
  | i, m :: ms =>
    if jsIsNull m then Except.error ExErr.typeErr
    else if !(mcqFieldsOk m) then
      Except.error (ExErr.indexed i ("MCQ " ++ toString i ++ " missing required fields"))
    else if !(mcqCaOk m) then
      Except.error (ExErr.indexed i ("MCQ " ++ toString i ++ " has invalid correct answer"))
    else if !(mcqKeysOk m) then
      Except.error (ExErr.indexed i ("MCQ " ++ toString i ++ " has invalid options"))
    else goMcq (i + 1) ms

/-- Validation of a parsed MCQ array. -/
def validateMcqs (l : List Json) : Except ExErr Unit := goMcq 0 l

/-- The /flashcards extraction path (src/index.js lines 134-155): bracket
slice, JSON.parse, Array.isArray, per-element validation. -/
def extractFlashcards (text : List Char) : Except ExErr (List Json) :=
  match parseTop (bracketSlice text) with
  | none => Except.error ExErr.parseErr
  | some (Json.arr l) => (validateFlashcards l).map (fun _ => l)
  | some _ => Except.error (ExErr.notArray "Invalid flashcard format")

/-- The /summarize extraction path (src/index.js lines 199-220). -/
def extractSummary (text : List Char) : Except ExErr (List Json) :=
  match parseTop (bracketSlice text) with
  | none => Except.error ExErr.parseErr
  | some (Json.arr l) => (validateSummary l).map (fun _ => l)
  | some _ => Except.error (ExErr.notArray "Invalid summary format")

/-- The /mcq extraction path (src/index.js lines 276-300). -/
def extractMCQs (text : List Char) : Except ExErr (List Json) :=
  match parseTop (bracketSlice text) with
  | none => Except.error ExErr.parseErr
  | some (Json.arr l) => (validateMcqs l).map (fun _ => l)
  | some _ => Except.error (ExErr.notArray "Invalid MCQ format")

/-- The in-memory vector store built from the chunked document (the external
MemoryVectorStore; only its identity matters to the handlers). -/
structure VStore where
  docs : List (List Char)

/-- An HTTP response: status code and JSON body, as produced by
res.status(..).json(..) / res.json(..). -/
structure HttpResp where
  status : Nat
  body : Json

/-- A body of the form with a single error field. -/
def errBody (m : String) : Json := Json.obj [("error", Json.str m)]

/-- The POST /flashcards handler (src/index.js lines 97-165) given the
process state, the raw model response text (the external chain call's
result) and the current ISO timestamp. -/
def flashcardsHandler (store : Option VStore) (modelText : List Char) (now : String) : HttpResp :=
  match store with
  | none => ⟨400, errBody "No PDF uploaded yet"⟩
  | some _ =>
    match extractFlashcards modelText with
    | Except.error e => ⟨500, errBody ("Failed to generate valid flashcards: " ++ exErrMsg e)⟩
    | Except.ok cards =>
      ⟨200, Json.obj [("flashcards", Json.arr cards), ("count", Json.num (cards.length : Int)),
        ("timestamp", Json.str now)]⟩

/-- The POST /summarize handler (src/index.js lines 167-230). -/
def summarizeHandler (store : Option VStore) (modelText : List Char) (now : String) : HttpResp :=
  match store with
  | none => ⟨400, errBody "No PDF uploaded yet"⟩
  | some _ =>
    match extractSummary modelText with
    | Except.error e => ⟨500, errBody ("Failed to generate valid summary: " ++ exErrMsg e)⟩
    | Except.ok pts =>
      ⟨200, Json.obj [("summary", Json.arr pts), ("count", Json.num (pts.length : Int)),
        ("timestamp", Json.str now)]⟩

/-- The POST /mcq handler (src/index.js lines 232-314). -/
def mcqHandler (store : Option VStore) (modelText : List Char) (now : String) : HttpResp :=
  match store with
  | none => ⟨400, errBody "No PDF uploaded yet"⟩
  | some _ =>
    match extractMCQs modelText with
    | Except.error e => ⟨500, errBody ("Failed to generate valid MCQs: " ++ exErrMsg e)⟩
    | Except.ok ms =>
      ⟨200, Json.obj [("mcqs", Json.arr ms), ("count", Json.num (ms.length : Int)),
        ("timestamp", Json.str now)]⟩

/-- JavaScript whitespace as matched by a backslash-s regex class and trimmed
by String.prototype.trim: ASCII whitespace, NBSP, Ogham space, the en-quad
through hair-space range, line and paragraph separators, narrow NBSP, math
space, ideographic space and the BOM. -/
def isWs (c : Char) : Bool :=
  let n := c.toNat
  (9 ≤ n && n ≤ 13) || n = 32 || n = 160 || n = 5760 ||
    (8192 ≤ n && n ≤ 8202) || n = 8232 || n = 8233 || n = 8239 || n = 8287 ||
    n = 12288 || n = 65279

/-- One pass of the whitespace-collapsing replace: the flag records whether
the previous input character was whitespace (in which case further
whitespace is absorbed into the already-emitted single space). -/
def collapseAux : Bool → List Char → List Char
  | _, [] => []
  | prevWs, c :: cs =>
    if isWs c then
      if prevWs then collapseAux true cs
      else ' ' :: collapseAux true cs
    else c :: collapseAux false cs

/-- data.text.replace of every maximal whitespace run by one space
(src/index.js line 66). -/
def collapseWs (l : List Char) : List Char := collapseAux false l

/-- Drop leading whitespace, as the leading half of String.prototype.trim. -/
def trimL (l : List Char) : List Char := l.dropWhile isWs

/-- Drop trailing whitespace, as the trailing half of String.prototype.trim. -/
def trimR : List Char → List Char
  | [] => []
  | c :: cs =>
    if (trimR cs).isEmpty && isWs c then [] else c :: trimR cs

/-- The Text Normalizer: collapse whitespace runs then trim both ends
(src/index.js line 66). -/
def normalizeWs (l : List Char) : List Char := trimR (trimL (collapseWs l))

/-- The normalizer including its emptiness gate (src/index.js lines 66-69):
an empty result raises the no-readable-text error. -/
def cleanTextResult (l : List Char) : Except String (List Char) :=
  let r := normalizeWs l
  if r = [] then Except.error "PDF contains no readable text" else Except.ok r

/-- Modelled from the spec: the Chunker (the external
RecursiveCharacterTextSplitter, not part of this repository) per section 4.2
of the spec: fixed-size segments of the given size, consecutive segments
overlapping by the given amount, hard-split at the size limit; an input no
longer than one chunk yields exactly one chunk.  The guard's second disjunct
only makes the recursion total; every use has overlap < size. -/
def mkChunks (s o : Nat) (text : List Char) : List (List Char) :=
  if _hguard : text.length ≤ s ∨ s ≤ o then [text]
  else text.take s :: mkChunks s o (text.drop (s - o))
termination_by text.length
decreasing_by
  simp only [List.length_drop]
  exact Nat.sub_lt (by omega) (by omega)

/-- Concatenate the tail chunks with their leading overlap removed. -/
def dropJoin (o : Nat) : List (List Char) → List Char
  | [] => []
  | c :: cs => c.drop o ++ dropJoin o cs

/-- Concatenate a chunk list with overlaps removed: the first chunk whole,
every later chunk without its first o characters. -/
def deOv (o : Nat) : List (List Char) → List Char
  | [] => []
  | c :: cs => c ++ dropJoin o cs

/-- Ceiling division on naturals. -/
def ceilDiv (a b : Nat) : Nat := (a + b - 1) / b

/-- The chunk size configured at src/index.js line 77. -/
def chunkSize : Nat := 1000

/-- The chunk overlap configured at src/index.js line 78. -/
def chunkOverlap : Nat := 200

/-- The uploaded file's fields used by the handler. -/
structure UpFile where
  mimetype : String
  originalname : String
  size : Nat

/-- The pdf data object check of src/index.js line 54: data truthy and
typeof data an object. -/
def pdfDataOk (data : Json) : Bool :=
  truthy data && typeofJs data == "object"

/-- The POST /upload handler (src/index.js lines 42-95) given the previous
process state, the multipart file (if any), the external pdf-parse outcome
and the external embedding/vector-store build step.  Returns the new process
state paired with the HTTP response; the state is replaced only in the final
fully-successful branch, exactly as the source assigns vectorStore only
after every prior stage has succeeded. -/
def uploadHandler (store : Option VStore) (file : Option UpFile)
    (pdfRes : Except String Json)
    (build : List (List Char) → Except String VStore) : Option VStore × HttpResp :=
  match file with
  | none => (store, ⟨400, errBody "No PDF file uploaded"⟩)
  | some f =>
    if f.mimetype = "application/pdf" then
      match pdfRes with
      | Except.error m => (store, ⟨500, errBody m⟩)
      | Except.ok data =>
        if pdfDataOk data then
          match jsGet data "text" with
          | some (Json.str s) =>
            if s = "" then (store, ⟨500, errBody "Failed to extract text from PDF"⟩)
            else
              match cleanTextResult s.data with
              | Except.error _ => (store, ⟨500, errBody "Failed to process PDF text"⟩)
              | Except.ok ct =>
                match build (mkChunks chunkSize chunkOverlap ct) with
                | Except.error m => (store, ⟨500, errBody m⟩)
                | Except.ok vs =>
                  (some vs, ⟨200, Json.obj [("text", Json.str s),
                    ("filename", Json.str f.originalname),
                    ("size", Json.num (f.size : Int)),
                    ("message", Json.str "PDF processed and ready for chat")]⟩)
          | _ => (store, ⟨500, errBody "Failed to extract text from PDF"⟩)
        else (store, ⟨500, errBody "Invalid PDF data received"⟩)
    else (store, ⟨400, errBody "File must be a PDF"⟩)

/-- The output of the Retrieval-Augmented Responder for one question: the
model's raw text and the retrieved grounding context. -/
structure ChatOut where
  text : List Char
  context : Json

/-- Modelled from the spec: the POST /chat endpoint (spec section 4.6) is
documented in the spec and exercised in the README but absent from
src/index.js, so it is modelled from the spec's words: body holds a
question; without a prior upload it answers HTTP 400 with a
NoDocumentLoaded-style error, otherwise it returns HTTP 200 with the
Responder's raw text as response, the retrieved context, and a timestamp. -/
def chatHandler (store : Option VStore) (question : String) (out : ChatOut)
    (now : String) : HttpResp :=
  match store, question with
  | none, _ => ⟨400, errBody "No PDF uploaded yet"⟩
  | some _, _ =>
    ⟨200, Json.obj [("response", Json.str (String.mk out.text)),
      ("context", out.context), ("timestamp", Json.str now)]⟩

/-- Whether a JSON value is a non-empty string (the shape the spec asserts
for flashcard fields). -/
def isNonEmptyStr : Json → Bool
  | Json.str s => s != ""
  | _ => false

/-- Whether a JSON value is a string. -/
def isStr : Json → Bool
  | Json.str _ => true
  | _ => false

/-- A flashcard element with numeric fields: truthy but not strings. -/
def fcBadCard : Json := Json.obj [("question", Json.num 1), ("answer", Json.num 2)]

/-- A well-formed flashcard element. -/
def fcGoodCard : Json := Json.obj [("question", Json.str "q1"), ("answer", Json.str "a1")]

/-- An MCQ element supplying only three of the four options. -/
def mcqThreeOpts : Json := Json.obj [("question", Json.str "Q"),
  ("options", Json.obj [("A", Json.str "x"), ("B", Json.str "y"), ("C", Json.str "z")]),
  ("correct_answer", Json.str "A")]

/-- An MCQ element with all four options but correct_answer E. -/
def mcqBadCa : Json := Json.obj [("question", Json.str "Q"),
  ("options", Json.obj [("A", Json.str "x"), ("B", Json.str "y"), ("C", Json.str "z"),
    ("D", Json.str "w")]),
  ("correct_answer", Json.str "E")]

/-- An MCQ element whose option A carries a number instead of a string. -/
def mcqNumOptVal : Json := Json.obj [("question", Json.str "Q"),
  ("options", Json.obj [("A", Json.num 1), ("B", Json.str "y"), ("C", Json.str "z"),
    ("D", Json.str "w")]),
  ("correct_answer", Json.str "A")]

/-- A fully well-formed MCQ element. -/
def mcqGood : Json := Json.obj [("question", Json.str "Q"),
  ("options", Json.obj [("A", Json.str "x"), ("B", Json.str "y"), ("C", Json.str "z"),
    ("D", Json.str "w")]),
  ("correct_answer", Json.str "A")]

/-- The claim's notion that an element's option-key set is exactly A, B, C, D. -/
def optKeySetExact (m : Json) : Prop :=
  ∀ k, k ∈ objectKeys (jsGetD m "options") ↔ k ∈ abcd

/-- The claim's notion that an element's correct_answer is one of A, B, C, D. -/
def caIsOneOf (m : Json) : Prop :=
  ∃ s, jsGetD m "correct_answer" = Json.str s ∧ s ∈ abcd

/-- The no-two-consecutive-whitespace relation used to state the Normalizer
property. -/
def wsRel (a b : Char) : Prop := ¬(isWs a = true ∧ isWs b = true)

/-- File metadata used by the upload witness. -/
def upFileW : UpFile := ⟨"application/pdf", "a.pdf", 3⟩

/-- A pdf-parse result whose text field is a plain word. -/
def pdfDataW : Json := Json.obj [("text", Json.str "hello")]

/-- A pdf-parse result whose text field is a single space (normalizes to
empty). -/
def pdfDataWs : Json := Json.obj [("text", Json.str " ")]

/-- C1: the POST /chat endpoint returns HTTP 400 with a NoDocumentLoaded-style
error for every request made before any successful upload, and after a
successful upload returns HTTP 200 with response, context and timestamp
fields, passing the Responder's raw model text through unmodified. -/
theorem chat_endpoint_contract : ∀ (q : String) (out : ChatOut) (now : String) (vs : VStore),
    chatHandler none q out now = ⟨400, errBody "No PDF uploaded yet"⟩ ∧
    chatHandler (some vs) q out now =
      ⟨200, Json.obj [("response", Json.str (String.mk out.text)),
        ("context", out.context), ("timestamp", Json.str now)]⟩ := by
  intro q out now vs
  exact ⟨rfl, rfl⟩

/-- C7: each of POST /flashcards, /summarize and /mcq returns HTTP 400 when no
document is loaded, and on successful extraction returns the validated
elements unchanged and in order, a count equal to the array's length and the
generation timestamp. -/
theorem structured_endpoints_contract :
    ∀ (modelText : List Char) (now : String) (vs : VStore),
    flashcardsHandler none modelText now = ⟨400, errBody "No PDF uploaded yet"⟩ ∧
    summarizeHandler none modelText now = ⟨400, errBody "No PDF uploaded yet"⟩ ∧
    mcqHandler none modelText now = ⟨400, errBody "No PDF uploaded yet"⟩ ∧
    (∀ cards, extractFlashcards modelText = Except.ok cards →
      flashcardsHandler (some vs) modelText now =
        ⟨200, Json.obj [("flashcards", Json.arr cards), ("count", Json.num (cards.length : Int)),
          ("timestamp", Json.str now)]⟩) ∧
    (∀ pts, extractSummary modelText = Except.ok pts →
      summarizeHandler (some vs) modelText now =
        ⟨200, Json.obj [("summary", Json.arr pts), ("count", Json.num (pts.length : Int)),
          ("timestamp", Json.str now)]⟩) ∧
    (∀ ms, extractMCQs modelText = Except.ok ms →
      mcqHandler (some vs) modelText now =
        ⟨200, Json.obj [("mcqs", Json.arr ms), ("count", Json.num (ms.length : Int)),
          ("timestamp", Json.str now)]⟩) := by
  intro modelText now vs
  refine ⟨rfl, rfl, rfl, ?_, ?_, ?_⟩
  · intro cards h
    simp only [flashcardsHandler, h]
  · intro pts h
    simp only [summarizeHandler, h]
  · intro ms h
    simp only [mcqHandler, h]

/-- Witness for C7 at the concrete model text of an empty JSON array. -/
theorem structured_endpoints_contract_witness :
    flashcardsHandler (some ⟨[]⟩) (renderJson (Json.arr [])) "T" =
      ⟨200, Json.obj [("flashcards", Json.arr []), ("count", Json.num 0),
        ("timestamp", Json.str "T")]⟩ ∧
    summarizeHandler (some ⟨[]⟩) (renderJson (Json.arr [])) "T" =
      ⟨200, Json.obj [("summary", Json.arr []), ("count", Json.num 0),
        ("timestamp", Json.str "T")]⟩ ∧
    mcqHandler (some ⟨[]⟩) (renderJson (Json.arr [])) "T" =
      ⟨200, Json.obj [("mcqs", Json.arr []), ("count", Json.num 0),
        ("timestamp", Json.str "T")]⟩ :=
  ⟨(structured_endpoints_contract (renderJson (Json.arr [])) "T" ⟨[]⟩).2.2.2.1 [] rfl,
   (structured_endpoints_contract (renderJson (Json.arr [])) "T" ⟨[]⟩).2.2.2.2.1 [] rfl,
   (structured_endpoints_contract (renderJson (Json.arr [])) "T" ⟨[]⟩).2.2.2.2.2 [] rfl⟩

/-- C10: when the bracket-delimited slice of the model text parses to the
empty JSON array, all three structured endpoints pass validation and return
HTTP 200 with an empty array and count 0. -/
theorem empty_array_accepted :
    ∀ (text : List Char) (now : String) (vs : VStore),
    parseTop (bracketSlice text) = some (Json.arr []) →
    flashcardsHandler (some vs) text now =
      ⟨200, Json.obj [("flashcards", Json.arr []), ("count", Json.num 0),
        ("timestamp", Json.str now)]⟩ ∧
    summarizeHandler (some vs) text now =
      ⟨200, Json.obj [("summary", Json.arr []), ("count", Json.num 0),
        ("timestamp", Json.str now)]⟩ ∧
    mcqHandler (some vs) text now =
      ⟨200, Json.obj [("mcqs", Json.arr []), ("count", Json.num 0),
        ("timestamp", Json.str now)]⟩ := by
  intro text now vs h
  have hf : extractFlashcards text = Except.ok [] := by
    unfold extractFlashcards
    rw [h]
    rfl
  have hs : extractSummary text = Except.ok [] := by
    unfold extractSummary
    rw [h]
    rfl
  have hm : extractMCQs text = Except.ok [] := by
    unfold extractMCQs
    rw [h]
    rfl
  refine ⟨?_, ?_, ?_⟩
  · simp only [flashcardsHandler, hf]
    rfl
  · simp only [summarizeHandler, hs]
    rfl
  · simp only [mcqHandler, hm]
    rfl

/-- Witness for C10 at a model text consisting of commentary around an empty
array. -/
theorem empty_array_accepted_witness :
    flashcardsHandler (some ⟨[]⟩) ("ok ".data ++ renderJson (Json.arr []) ++ " bye".data) "T" =
      ⟨200, Json.obj [("flashcards", Json.arr []), ("count", Json.num 0),
        ("timestamp", Json.str "T")]⟩ ∧
    summarizeHandler (some ⟨[]⟩) ("ok ".data ++ renderJson (Json.arr []) ++ " bye".data) "T" =
      ⟨200, Json.obj [("summary", Json.arr []), ("count", Json.num 0),
        ("timestamp", Json.str "T")]⟩ ∧
    mcqHandler (some ⟨[]⟩) ("ok ".data ++ renderJson (Json.arr []) ++ " bye".data) "T" =
      ⟨200, Json.obj [("mcqs", Json.arr []), ("count", Json.num 0),
        ("timestamp", Json.str "T")]⟩ :=
  empty_array_accepted ("ok ".data ++ renderJson (Json.arr []) ++ " bye".data) "T" ⟨[]⟩ rfl

theorem lastIdxOf_lt_length {c : Char} : ∀ {l : List Char} {j : Nat},
    lastIdxOf c l = some j → j < l.length := by
  intro l
  induction l with
  | nil => intro j h; simp [lastIdxOf] at h
  | cons x xs ih =>
    intro j h
    simp only [lastIdxOf] at h
    split at h
    · rename_i j' heq
      injection h with h2
      have := ih heq
      simp only [List.length_cons]
      omega
    · split at h
      · injection h with h2
        simp only [List.length_cons]
        omega
      · exact absurd h (by simp)

theorem lastIdxOf_getElem {c : Char} : ∀ {l : List Char} {j : Nat},
    lastIdxOf c l = some j → l[j]? = some c := by
  intro l
  induction l with
  | nil => intro j h; simp [lastIdxOf] at h
  | cons x xs ih =>
    intro j h
    simp only [lastIdxOf] at h
    split at h
    · rename_i j' heq
      injection h with h2
      subst h2
      simpa using ih heq
    · rename_i heq
      split at h
      · rename_i hxc
        injection h with h2
        subst h2
        simp [hxc]
      · exact absurd h (by simp)

theorem jsSlice_stop_zero (l : List Char) (start : Int) : jsSlice l start 0 = [] := by
  simp only [jsSlice]
  rw [List.take_eq_nil_iff]
  left
  split_ifs <;> omega

theorem jsSlice_stop_le_start (l : List Char) (start stop : Int) (h0 : 0 ≤ stop)
    (hle : stop ≤ start) : jsSlice l start stop = [] := by
  simp only [jsSlice]
  rw [List.take_eq_nil_iff]
  left
  split_ifs <;> omega

theorem jsSlice_neg1 (l : List Char) (j : Nat) (hj : j < l.length) :
    jsSlice l (-1) ((j : Int) + 1) = if j + 1 = l.length then l.drop j else [] := by
  by_cases hje : j + 1 = l.length
  · rw [if_pos hje]
    simp only [jsSlice]
    rw [if_pos (show (-1 : Int) < 0 from by norm_num)]
    rw [if_neg (show ¬((j : Int) + 1 < 0) from by omega)]
    have e1 : ((-1 : Int) + (l.length : Int)).toNat = j := by omega
    have e2 : min ((j : Int) + 1).toNat l.length = j + 1 := by omega
    rw [e1, e2]
    have e3 : j + 1 - j = 1 := by omega
    rw [e3]
    exact List.take_of_length_le (by simp only [List.length_drop]; omega)
  · rw [if_neg hje]
    simp only [jsSlice]
    rw [List.take_eq_nil_iff]
    left
    split_ifs <;> omega

theorem drop_pred_eq_last (l : List Char) (j : Nat) (hje : j + 1 = l.length) (c : Char)
    (hc : l[j]? = some c) : l.drop j = [c] := by
  have hj : j < l.length := by omega
  rw [List.drop_eq_getElem_cons hj]
  rw [List.getElem?_eq_getElem hj] at hc
  rw [Option.some.inj hc, List.drop_eq_nil_of_le (by omega)]

theorem jsonStartIdx_none {text : List Char} (h : firstIdxOf lbrackC text = none) :
    jsonStartIdx text = -1 := by
  unfold jsonStartIdx
  rw [h]

theorem jsonStartIdx_some {text : List Char} {i : Nat} (h : firstIdxOf lbrackC text = some i) :
    jsonStartIdx text = (i : Int) := by
  unfold jsonStartIdx
  rw [h]

theorem jsonEndIdx_none {text : List Char} (h : lastIdxOf rbrackC text = none) :
    jsonEndIdx text = 0 := by
  unfold jsonEndIdx
  rw [h]
  decide

theorem jsonEndIdx_some {text : List Char} {j : Nat} (h : lastIdxOf rbrackC text = some j) :
    jsonEndIdx text = (j : Int) + 1 := by
  unfold jsonEndIdx
  rw [h]

theorem bracketSlice_degenerate (text : List Char)
    (h : firstIdxOf lbrackC text = none ∨ lastIdxOf rbrackC text = none ∨
      (∃ i j, firstIdxOf lbrackC text = some i ∧ lastIdxOf rbrackC text = some j ∧ j < i)) :
    bracketSlice text = [] ∨ bracketSlice text = [rbrackC] := by
  unfold bracketSlice
  rcases h with h1 | h1 | ⟨i, j, hi, hj, hij⟩
  · rw [jsonStartIdx_none h1]
    cases h2 : lastIdxOf rbrackC text with
    | none =>
      rw [jsonEndIdx_none h2]
      left
      exact jsSlice_stop_zero _ _
    | some j =>
      rw [jsonEndIdx_some h2]
      rw [jsSlice_neg1 _ _ (lastIdxOf_lt_length h2)]
      by_cases hje : j + 1 = text.length
      · rw [if_pos hje]
        right
        exact drop_pred_eq_last _ _ hje _ (lastIdxOf_getElem h2)
      · rw [if_neg hje]
        left
        rfl
  · rw [jsonEndIdx_none h1]
    left
    exact jsSlice_stop_zero _ _
  · rw [jsonStartIdx_some hi, jsonEndIdx_some hj]
    left
    exact jsSlice_stop_le_start _ _ _ (by omega) (by omega)

/-- C5: for all three variants, a model text without a left bracket, without
a right bracket, or whose first left bracket comes after its last right
bracket makes extraction fail (the sliced string is empty or a lone right
bracket, which JSON.parse rejects), so no array is ever returned. -/
theorem bracketless_extraction_fails : ∀ text : List Char,
    (firstIdxOf lbrackC text = none ∨ lastIdxOf rbrackC text = none ∨
      (∃ i j, firstIdxOf lbrackC text = some i ∧ lastIdxOf rbrackC text = some j ∧ j < i)) →
    extractFlashcards text = Except.error ExErr.parseErr ∧
    extractSummary text = Except.error ExErr.parseErr ∧
    extractMCQs text = Except.error ExErr.parseErr := by
  intro text h
  have hp : parseTop (bracketSlice text) = none := by
    rcases bracketSlice_degenerate text h with h1 | h1 <;> rw [h1] <;> rfl
  exact ⟨by simp only [extractFlashcards, hp], by simp only [extractSummary, hp],
    by simp only [extractMCQs, hp]⟩

/-- Witness for C5 at a model text with no brackets at all. -/
theorem bracketless_extraction_fails_witness :
    extractFlashcards ("hello".data) = Except.error ExErr.parseErr ∧
    extractSummary ("hello".data) = Except.error ExErr.parseErr ∧
    extractMCQs ("hello".data) = Except.error ExErr.parseErr :=
  bracketless_extraction_fails ("hello".data) (Or.inl rfl)

theorem flashOk_ne_null {x : Json} (hx : flashOk x = true) : jsIsNull x = false := by
  cases x <;> simp_all [flashOk, jsGet, truthyOpt, jsIsNull]

theorem goFlash_ok_all : ∀ (l : List Json) (i : Nat), goFlash i l = Except.ok () →
    ∀ c ∈ l, flashOk c = true := by
  intro l
  induction l with
  | nil => intro i _ c hc; simp at hc
  | cons x xs ih =>
    intro i h c hc
    simp only [goFlash] at h
    cases hn : jsIsNull x with
    | true => rw [hn] at h; simp at h
    | false =>
      rw [hn] at h
      cases hf : flashOk x with
      | false => rw [hf] at h; simp at h
      | true =>
        rw [hf] at h
        simp only [if_neg, if_pos] at h
        rcases List.mem_cons.mp hc with rfl | hc2
        · exact hf
        · exact ih (i + 1) (by simpa using h) c hc2

theorem goFlash_append (pre rest : List Json) :
    ∀ i, (∀ p ∈ pre, flashOk p = true) →
    goFlash i (pre ++ rest) = goFlash (i + pre.length) rest := by
  induction pre with
  | nil => intro i _; simp
  | cons x xs ih =>
    intro i hp
    have hx : flashOk x = true := hp x (List.mem_cons_self x xs)
    have hn : jsIsNull x = false := flashOk_ne_null hx
    simp only [List.cons_append, goFlash, hn, hx, if_true, Bool.false_eq_true, if_false,
      List.append_eq]
    rw [ih (i + 1) (fun p hp2 => hp p (List.mem_cons_of_mem _ hp2))]
    congr 1
    simp only [List.length_cons]
    omega

theorem goFlash_fail (pre : List Json) (c : Json) (post : List Json) (i : Nat)
    (hpre : ∀ p ∈ pre, flashOk p = true) (hn : jsIsNull c = false) (hbad : flashOk c = false) :
    goFlash i (pre ++ c :: post) =
      Except.error (ExErr.indexed (i + pre.length)
        ("Flashcard " ++ toString (i + pre.length) ++ " missing question or answer")) := by
  rw [goFlash_append pre (c :: post) i hpre]
  simp [goFlash, hn, hbad]

theorem extractFlashcards_parse_arr {text : List Char} {l : List Json}
    (hp : parseTop (bracketSlice text) = some (Json.arr l)) :
    extractFlashcards text = (validateFlashcards l).map (fun _ => l) := by
  unfold extractFlashcards
  rw [hp]

/-- C2 (amended): every element of an array returned by the flashcard
extraction path has question and answer properties that are truthy under
JavaScript truthiness (so string fields are necessarily non-empty, but
truthy non-string values are accepted as well); an element whose question
or answer is missing or falsy makes extraction fail with an error naming
the first such index.  Non-empty-string typing is not enforced. -/
theorem flashcard_validation :
    (∀ text cards, extractFlashcards text = Except.ok cards → ∀ c ∈ cards, flashOk c = true) ∧
    (∀ text (pre : List Json) (c : Json) (post : List Json),
      parseTop (bracketSlice text) = some (Json.arr (pre ++ c :: post)) →
      (∀ p ∈ pre, flashOk p = true) → jsIsNull c = false → flashOk c = false →
      extractFlashcards text =
        Except.error (ExErr.indexed pre.length
          ("Flashcard " ++ toString pre.length ++ " missing question or answer"))) := by
  constructor
  · intro text cards h c hc
    cases hp : parseTop (bracketSlice text) with
    | none =>
      unfold extractFlashcards at h
      rw [hp] at h
      simp at h
    | some v =>
      cases v with
      | arr l =>
        rw [extractFlashcards_parse_arr hp] at h
        cases hv : validateFlashcards l with
        | error e => rw [hv] at h; simp [Except.map] at h
        | ok u =>
          rw [hv] at h
          simp only [Except.map] at h
          injection h with h2
          subst h2
          cases u
          exact goFlash_ok_all l 0 hv c hc
      | null => unfold extractFlashcards at h; rw [hp] at h; simp at h
      | bool b => unfold extractFlashcards at h; rw [hp] at h; simp at h
      | num n => unfold extractFlashcards at h; rw [hp] at h; simp at h
      | str s => unfold extractFlashcards at h; rw [hp] at h; simp at h
      | obj f => unfold extractFlashcards at h; rw [hp] at h; simp at h
  · intro text pre c post hp hpre hn hbad
    rw [extractFlashcards_parse_arr hp]
    unfold validateFlashcards
    rw [goFlash_fail pre c post 0 hpre hn hbad]
    simp [Except.map]

/-- Counterexample to C2 as stated: a flashcard element whose question and
answer are numbers (truthy, not strings) passes validation and is returned
by the extraction path instead of failing. -/
theorem flashcard_validation_counterexample :
    extractFlashcards (renderJson (Json.arr [fcBadCard])) = Except.ok [fcBadCard] ∧
    isNonEmptyStr (jsGetD fcBadCard "question") = false ∧
    isNonEmptyStr (jsGetD fcBadCard "answer") = false :=
  ⟨rfl, rfl, rfl⟩

/-- Witness for C2 (amended) at one passing and one failing concrete text. -/
theorem flashcard_validation_witness :
    flashOk fcGoodCard = true ∧
    extractFlashcards (renderJson (Json.arr [Json.obj []])) =
      Except.error (ExErr.indexed 0 ("Flashcard " ++ toString 0 ++ " missing question or answer")) :=
  ⟨flashcard_validation.1 (renderJson (Json.arr [fcGoodCard])) [fcGoodCard] rfl fcGoodCard
      (by simp),
   flashcard_validation.2 (renderJson (Json.arr [Json.obj []])) [] (Json.obj []) [] rfl
      (by simp) rfl rfl⟩

theorem mcqOk_parts {m : Json} (h : mcqOk m = true) :
    jsIsNull m = false ∧ mcqFieldsOk m = true ∧ mcqCaOk m = true ∧ mcqKeysOk m = true := by
  simp only [mcqOk, Bool.and_eq_true, Bool.not_eq_true'] at h
  exact ⟨h.1.1.1, h.1.1.2, h.1.2, h.2⟩

theorem mcqOk_ne_null {m : Json} (h : mcqOk m = true) : jsIsNull m = false :=
  (mcqOk_parts h).1

theorem goMcq_ok_all : ∀ (l : List Json) (i : Nat), goMcq i l = Except.ok () →
    ∀ m ∈ l, mcqOk m = true := by
  intro l
  induction l with
  | nil => intro i _ m hm; simp at hm
  | cons x xs ih =>
    intro i h m hm
    simp only [goMcq] at h
    cases hn : jsIsNull x with
    | true => rw [hn] at h; simp at h
    | false =>
      rw [hn] at h
      cases hf : mcqFieldsOk x with
      | false => rw [hf] at h; simp at h
      | true =>
        rw [hf] at h
        cases hc : mcqCaOk x with
        | false => rw [hc] at h; simp at h
        | true =>
          rw [hc] at h
          cases hk : mcqKeysOk x with
          | false => rw [hk] at h; simp at h
          | true =>
            rw [hk] at h
            simp only [Bool.false_eq_true, if_false, Bool.not_true, if_true] at h
            rcases List.mem_cons.mp hm with rfl | hm2
            · simp [mcqOk, hn, hf, hc, hk]
            · exact ih (i + 1) (by simpa using h) m hm2

theorem goMcq_append (pre rest : List Json) :
    ∀ i, (∀ p ∈ pre, mcqOk p = true) →
    goMcq i (pre ++ rest) = goMcq (i + pre.length) rest := by
  induction pre with
  | nil => intro i _; simp
  | cons x xs ih =>
    intro i hp
    obtain ⟨hn, hf, hc, hk⟩ := mcqOk_parts (hp x (List.mem_cons_self x xs))
    simp only [List.cons_append, goMcq, hn, hf, hc, hk, if_true, Bool.false_eq_true, if_false,
      Bool.not_true, List.append_eq]
    rw [ih (i + 1) (fun p hp2 => hp p (List.mem_cons_of_mem _ hp2))]
    congr 1
    simp only [List.length_cons]
    omega

theorem goMcq_fail (pre : List Json) (m : Json) (post : List Json) (i : Nat)
    (hpre : ∀ p ∈ pre, mcqOk p = true) (hn : jsIsNull m = false) (hbad : mcqOk m = false) :
    ∃ msg, goMcq i (pre ++ m :: post) = Except.error (ExErr.indexed (i + pre.length) msg) := by
  rw [goMcq_append pre (m :: post) i hpre]
  cases hf : mcqFieldsOk m with
  | false =>
    exact ⟨"MCQ " ++ toString (i + pre.length) ++ " missing required fields",
      by simp [goMcq, hn, hf]⟩
  | true =>
    cases hc : mcqCaOk m with
    | false =>
      exact ⟨"MCQ " ++ toString (i + pre.length) ++ " has invalid correct answer",
        by simp [goMcq, hn, hf, hc]⟩
    | true =>
      cases hk : mcqKeysOk m with
      | false =>
        exact ⟨"MCQ " ++ toString (i + pre.length) ++ " has invalid options",
          by simp [goMcq, hn, hf, hc, hk]⟩
      | true =>
        exfalso
        have : mcqOk m = true := by simp [mcqOk, hn, hf, hc, hk]
        rw [this] at hbad
        exact Bool.noConfusion hbad

theorem extractMCQs_parse_arr {text : List Char} {l : List Json}
    (hp : parseTop (bracketSlice text) = some (Json.arr l)) :
    extractMCQs text = (validateMcqs l).map (fun _ => l) := by
  unfold extractMCQs
  rw [hp]

/-- C3 (amended): every element of an array returned by the MCQ extraction
path passes the source's checks, namely truthiness of question, options and
correct_answer, correct_answer being one of the strings A, B, C, D, and the
options having exactly four keys all among A, B, C, D; neither the question
nor the option values are type-checked, so non-string option values are
accepted rather than rejected. -/
theorem mcq_validation : ∀ (text : List Char) (l : List Json),
    extractMCQs text = Except.ok l → ∀ m ∈ l, mcqOk m = true := by
  intro text l h m hm
  cases hp : parseTop (bracketSlice text) with
  | none =>
    unfold extractMCQs at h
    rw [hp] at h
    simp at h
  | some v =>
    cases v with
    | arr l2 =>
      rw [extractMCQs_parse_arr hp] at h
      cases hv : validateMcqs l2 with
      | error e => rw [hv] at h; simp [Except.map] at h
      | ok u =>
        rw [hv] at h
        simp only [Except.map] at h
        injection h with h2
        subst h2
        cases u
        exact goMcq_ok_all l2 0 hv m hm
    | null => unfold extractMCQs at h; rw [hp] at h; simp at h
    | bool b => unfold extractMCQs at h; rw [hp] at h; simp at h
    | num n => unfold extractMCQs at h; rw [hp] at h; simp at h
    | str s => unfold extractMCQs at h; rw [hp] at h; simp at h
    | obj f => unfold extractMCQs at h; rw [hp] at h; simp at h

/-- Counterexample to C3 as stated: an MCQ element whose option A is the
number 1 (not a string) passes validation and is returned by the extraction
path instead of being rejected. -/
theorem mcq_validation_counterexample :
    extractMCQs (renderJson (Json.arr [mcqNumOptVal])) = Except.ok [mcqNumOptVal] ∧
    isStr (jsGetD (jsGetD mcqNumOptVal "options") "A") = false :=
  ⟨rfl, rfl⟩

/-- Witness for C3 (amended) at a concrete well-formed MCQ text. -/
theorem mcq_validation_witness : mcqOk mcqGood = true :=
  mcq_validation (renderJson (Json.arr [mcqGood])) [mcqGood] rfl mcqGood (by simp)

theorem mcqKeysOk_exact {m : Json} (hk : mcqKeysOk m = true)
    (hnd : (objectKeys (jsGetD m "options")).Nodup) : optKeySetExact m := by
  simp only [mcqKeysOk, Bool.and_eq_true, beq_iff_eq, List.all_eq_true] at hk
  obtain ⟨hlen, hall⟩ := hk
  intro k
  constructor
  · intro hkmem
    have := hall k hkmem
    simpa [List.elem_iff] using this
  · intro hmem
    classical
    have hsub : (objectKeys (jsGetD m "options")).toFinset ⊆ abcd.toFinset := by
      intro a ha
      simp only [List.mem_toFinset] at ha ⊢
      simpa [List.elem_iff] using hall a ha
    have hcard1 : (objectKeys (jsGetD m "options")).toFinset.card = 4 := by
      rw [List.toFinset_card_of_nodup hnd, hlen]
    have hcard2 : abcd.toFinset.card = 4 := by decide
    have heq : (objectKeys (jsGetD m "options")).toFinset = abcd.toFinset :=
      Finset.eq_of_subset_of_card_le hsub (by omega)
    have : k ∈ (objectKeys (jsGetD m "options")).toFinset := by
      rw [heq]
      simpa [List.mem_toFinset] using hmem
    simpa [List.mem_toFinset] using this

theorem mcqCaOk_oneOf {m : Json} (hc : mcqCaOk m = true) : caIsOneOf m := by
  unfold mcqCaOk at hc
  cases hval : jsGetD m "correct_answer" with
  | str s =>
    rw [hval] at hc
    refine ⟨s, hval, ?_⟩
    simpa [isStrIn, List.elem_iff] using hc
  | null => rw [hval] at hc; simp [isStrIn] at hc
  | bool b => rw [hval] at hc; simp [isStrIn] at hc
  | num n => rw [hval] at hc; simp [isStrIn] at hc
  | arr a => rw [hval] at hc; simp [isStrIn] at hc
  | obj f => rw [hval] at hc; simp [isStrIn] at hc

/-- C4: an MCQ element whose option-key set (with the distinct keys JSON.parse
produces) is not exactly A, B, C, D, or whose correct_answer is not one of
A, B, C, D, makes extraction fail with an error naming the element's index
(stated for the first such element, as the loop stops at the first
failure). -/
theorem mcq_rejects_bad_keyset_or_answer :
    ∀ (text : List Char) (pre : List Json) (m : Json) (post : List Json),
    parseTop (bracketSlice text) = some (Json.arr (pre ++ m :: post)) →
    (∀ p ∈ pre, mcqOk p = true) →
    jsIsNull m = false →
    (objectKeys (jsGetD m "options")).Nodup →
    (¬ optKeySetExact m ∨ ¬ caIsOneOf m) →
    ∃ msg, extractMCQs text = Except.error (ExErr.indexed pre.length msg) := by
  intro text pre m post hp hpre hn hnd hbad
  have hbadok : mcqOk m = false := by
    cases hok : mcqOk m with
    | false => rfl
    | true =>
      exfalso
      obtain ⟨_, _, hc, hk⟩ := mcqOk_parts hok
      rcases hbad with hb | hb
      · exact hb (mcqKeysOk_exact hk hnd)
      · exact hb (mcqCaOk_oneOf hc)
  obtain ⟨msg, hmsg⟩ := goMcq_fail pre m post 0 hpre hn hbadok
  refine ⟨msg, ?_⟩
  rw [extractMCQs_parse_arr hp]
  unfold validateMcqs
  rw [hmsg]
  simp [Except.map]

/-- Witness for C4 at the two spec examples: an element with only three
options, and an element with four options but correct_answer E. -/
theorem mcq_rejects_bad_keyset_or_answer_witness :
    (∃ msg, extractMCQs (renderJson (Json.arr [mcqThreeOpts])) =
      Except.error (ExErr.indexed 0 msg)) ∧
    (∃ msg, extractMCQs (renderJson (Json.arr [mcqBadCa])) =
      Except.error (ExErr.indexed 0 msg)) := by
  constructor
  · exact mcq_rejects_bad_keyset_or_answer (renderJson (Json.arr [mcqThreeOpts]))
      [] mcqThreeOpts [] rfl (by simp) rfl (by decide)
      (Or.inl (fun h => absurd ((h "D").mpr (by decide)) (by decide)))
  · refine mcq_rejects_bad_keyset_or_answer (renderJson (Json.arr [mcqBadCa]))
      [] mcqBadCa [] rfl (by simp) rfl (by decide) (Or.inr ?_)
    rintro ⟨s, hs, hmem⟩
    have hE : jsGetD mcqBadCa "correct_answer" = Json.str "E" := rfl
    rw [hE] at hs
    injection hs with h2
    subst h2
    exact absurd hmem (by decide)

theorem uploadHandler_state (store : Option VStore) (file : Option UpFile)
    (pdfRes : Except String Json) (build : List (List Char) → Except String VStore) :
    (uploadHandler store file pdfRes build).1 = store ∨
      (uploadHandler store file pdfRes build).2.status = 200 := by
  cases file with
  | none => left; rfl
  | some f =>
    by_cases hm : f.mimetype = "application/pdf"
    · cases pdfRes with
      | error m => left; simp [uploadHandler, hm]
      | ok data =>
        by_cases hd : pdfDataOk data = true
        · cases hjt : jsGet data "text" with
          | none => left; simp [uploadHandler, hm, hd, hjt]
          | some t =>
            cases t with
            | str s =>
              by_cases hs : s = ""
              · left; simp [uploadHandler, hm, hd, hjt, hs]
              · cases hct : cleanTextResult s.data with
                | error e => left; simp [uploadHandler, hm, hd, hjt, hs, hct]
                | ok ct =>
                  cases hb : build (mkChunks chunkSize chunkOverlap ct) with
                  | error m => left; simp [uploadHandler, hm, hd, hjt, hs, hct, hb]
                  | ok vs => right; simp [uploadHandler, hm, hd, hjt, hs, hct, hb]
            | null => left; simp [uploadHandler, hm, hd, hjt]
            | bool b => left; simp [uploadHandler, hm, hd, hjt]
            | num n => left; simp [uploadHandler, hm, hd, hjt]
            | arr a => left; simp [uploadHandler, hm, hd, hjt]
            | obj o => left; simp [uploadHandler, hm, hd, hjt]
        · left; simp [uploadHandler, hm, hd]
    · left; simp [uploadHandler, hm]

/-- C6: any failing stage of the upload pipeline yields HTTP 500 carrying
that failure's message with the previously active index left unchanged, and
the process-wide index changes only when the whole pipeline succeeds with
HTTP 200. -/
theorem upload_no_partial_state :
    ∀ (store : Option VStore) (file : Option UpFile) (pdfRes : Except String Json)
      (build : List (List Char) → Except String VStore),
    (∀ f m, file = some f → f.mimetype = "application/pdf" → pdfRes = Except.error m →
      uploadHandler store file pdfRes build = (store, ⟨500, errBody m⟩)) ∧
    (∀ f data s, file = some f → f.mimetype = "application/pdf" → pdfRes = Except.ok data →
      pdfDataOk data = true → jsGet data "text" = some (Json.str s) → s ≠ "" →
      normalizeWs s.data = [] →
      uploadHandler store file pdfRes build =
        (store, ⟨500, errBody "Failed to process PDF text"⟩)) ∧
    (∀ f data s ct m, file = some f → f.mimetype = "application/pdf" →
      pdfRes = Except.ok data → pdfDataOk data = true →
      jsGet data "text" = some (Json.str s) → s ≠ "" →
      cleanTextResult s.data = Except.ok ct →
      build (mkChunks chunkSize chunkOverlap ct) = Except.error m →
      uploadHandler store file pdfRes build = (store, ⟨500, errBody m⟩)) ∧
    ((uploadHandler store file pdfRes build).1 ≠ store →
      (uploadHandler store file pdfRes build).2.status = 200) := by
  intro store file pdfRes build
  refine ⟨?_, ?_, ?_, ?_⟩
  · intro f m hfile hmime hpdf
    subst hfile
    subst hpdf
    simp [uploadHandler, hmime]
  · intro f data s hfile hmime hpdf hdata htext hs hnorm
    subst hfile
    subst hpdf
    have hct : cleanTextResult s.data = Except.error "PDF contains no readable text" := by
      unfold cleanTextResult
      rw [hnorm]
      rfl
    simp [uploadHandler, hmime, hdata, htext, hs, hct]
  · intro f data s ct m hfile hmime hpdf hdata htext hs hct hb
    subst hfile
    subst hpdf
    simp [uploadHandler, hmime, hdata, htext, hs, hct, hb]
  · intro hne
    rcases uploadHandler_state store file pdfRes build with h | h
    · exact absurd h hne
    · exact h

/-- Witness for C6 exercising a pdf-stage failure, a normalize-stage
failure, a build-stage failure, and a successful swap. -/
theorem upload_no_partial_state_witness :
    uploadHandler (some ⟨[]⟩) (some upFileW) (Except.error "boom")
        (fun _ => Except.error "nope") = (some ⟨[]⟩, ⟨500, errBody "boom"⟩) ∧
    uploadHandler (some ⟨[]⟩) (some upFileW) (Except.ok pdfDataWs)
        (fun _ => Except.error "nope") =
      (some ⟨[]⟩, ⟨500, errBody "Failed to process PDF text"⟩) ∧
    uploadHandler (some ⟨[]⟩) (some upFileW) (Except.ok pdfDataW)
        (fun _ => Except.error "embeddings down") =
      (some ⟨[]⟩, ⟨500, errBody "embeddings down"⟩) ∧
    (uploadHandler none (some upFileW) (Except.ok pdfDataW)
        (fun _ => Except.ok ⟨[]⟩)).2.status = 200 :=
  ⟨(upload_no_partial_state (some ⟨[]⟩) (some upFileW) (Except.error "boom")
      (fun _ => Except.error "nope")).1 upFileW "boom" rfl rfl rfl,
   (upload_no_partial_state (some ⟨[]⟩) (some upFileW) (Except.ok pdfDataWs)
      (fun _ => Except.error "nope")).2.1 upFileW pdfDataWs " " rfl rfl rfl rfl rfl
      (by simp) rfl,
   (upload_no_partial_state (some ⟨[]⟩) (some upFileW) (Except.ok pdfDataW)
      (fun _ => Except.error "embeddings down")).2.2.1 upFileW pdfDataW "hello" "hello".data
      "embeddings down" rfl rfl rfl rfl rfl (by simp) rfl rfl,
   (upload_no_partial_state none (some upFileW) (Except.ok pdfDataW)
      (fun _ => Except.ok ⟨[]⟩)).2.2.2 (fun hcon => Option.noConfusion hcon)⟩

theorem head?_dropWhile (p : Char → Bool) : ∀ (l : List Char) (c : Char),
    (l.dropWhile p).head? = some c → p c = false := by
  intro l
  induction l with
  | nil => intro c h; simp [List.dropWhile] at h
  | cons x xs ih =>
    intro c h
    rw [List.dropWhile_cons] at h
    by_cases hx : p x = true
    · rw [if_pos hx] at h
      exact ih c h
    · rw [if_neg hx] at h
      simp only [List.head?_cons, Option.some.injEq] at h
      subst h
      exact Bool.eq_false_iff.mpr hx

theorem chain'_dropWhile {R : Char → Char → Prop} (p : Char → Bool) :
    ∀ (l : List Char), List.Chain' R l → List.Chain' R (l.dropWhile p) := by
  intro l
  induction l with
  | nil => intro h; simp
  | cons x xs ih =>
    intro h
    rw [List.dropWhile_cons]
    by_cases hx : p x = true
    · rw [if_pos hx]
      exact ih h.tail
    · rw [if_neg hx]
      exact h

theorem collapseAux_chain : ∀ (l : List Char) (b : Bool),
    List.Chain' wsRel (collapseAux b l) ∧
      (b = true → ∀ c, (collapseAux b l).head? = some c → isWs c = false) := by
  intro l
  induction l with
  | nil => intro b; constructor
           · simp [collapseAux]
           · intro _ c h; simp [collapseAux] at h
  | cons x xs ih =>
    intro b
    by_cases hx : isWs x = true
    · cases b with
      | true =>
        have := ih true
        constructor
        · simpa [collapseAux, hx] using this.1
        · intro _ c h
          rw [show collapseAux true (x :: xs) = collapseAux true xs from by
            simp [collapseAux, hx]] at h
          exact this.2 rfl c h
      | false =>
        have hrec := ih true
        have hred : collapseAux false (x :: xs) = ' ' :: collapseAux true xs := by
          simp [collapseAux, hx]
        constructor
        · rw [hred]
          rw [List.chain'_cons']
          constructor
          · intro y hy
            have : isWs y = false := hrec.2 rfl y hy
            intro hcon
            rw [this] at hcon
            exact Bool.noConfusion hcon.2
          · exact hrec.1
        · intro hb
          exact absurd hb (by simp)
    · have hrec := ih false
      have hred : collapseAux b (x :: xs) = x :: collapseAux false xs := by
        cases b <;> simp [collapseAux, hx]
      constructor
      · rw [hred]
        rw [List.chain'_cons']
        constructor
        · intro y hy
          intro hcon
          rw [Bool.eq_false_iff.mpr hx] at hcon
          exact Bool.noConfusion hcon.1
        · exact hrec.1
      · intro _ c h
        rw [hred] at h
        simp only [List.head?_cons, Option.some.injEq] at h
        subst h
        exact Bool.eq_false_iff.mpr hx

theorem trimR_head? : ∀ (l : List Char) (c : Char),
    (trimR l).head? = some c → l.head? = some c := by
  intro l
  induction l with
  | nil => intro c h; simp [trimR] at h
  | cons x xs _ =>
    intro c h
    unfold trimR at h
    by_cases hcond : (trimR xs).isEmpty && isWs x
    · rw [if_pos hcond] at h
      simp at h
    · rw [if_neg hcond] at h
      simpa using h

theorem trimR_chain {l : List Char} (h : List.Chain' wsRel l) :
    List.Chain' wsRel (trimR l) := by
  induction l with
  | nil => simp [trimR]
  | cons x xs ih =>
    unfold trimR
    by_cases hcond : (trimR xs).isEmpty && isWs x
    · rw [if_pos hcond]
      simp
    · rw [if_neg hcond]
      rw [List.chain'_cons']
      constructor
      · intro y hy
        have hyh : xs.head? = some y := trimR_head? xs y hy
        have := List.chain'_cons'.mp h
        exact this.1 y hyh
      · exact ih h.tail

theorem trimR_getLast : ∀ (l : List Char) (c : Char),
    (trimR l).getLast? = some c → isWs c = false := by
  intro l
  induction l with
  | nil => intro c h; simp [trimR] at h
  | cons x xs ih =>
    intro c h
    unfold trimR at h
    by_cases hcond : (trimR xs).isEmpty && isWs x
    · rw [if_pos hcond] at h
      simp at h
    · rw [if_neg hcond] at h
      cases heq : trimR xs with
      | nil =>
        rw [heq] at h
        simp only [List.getLast?_singleton, Option.some.injEq] at h
        rw [← h]
        simp only [Bool.and_eq_true, List.isEmpty_iff] at hcond
        by_cases hw : isWs x = true
        · exact absurd ⟨by simp [heq], hw⟩ hcond
        · exact Bool.eq_false_iff.mpr hw
      | cons y ys =>
        rw [heq] at h
        rw [List.getLast?_cons_cons] at h
        rw [← heq] at h
        exact ih c h

theorem collapseAux_true_allws : ∀ (l : List Char), (∀ c ∈ l, isWs c = true) →
    collapseAux true l = [] := by
  intro l
  induction l with
  | nil => intro _; rfl
  | cons x xs ih =>
    intro h
    have hx : isWs x = true := h x (List.mem_cons_self x xs)
    simp only [collapseAux, hx, if_pos, if_true]
    exact ih (fun c hc => h c (List.mem_cons_of_mem _ hc))

theorem normalizeWs_allws : ∀ (l : List Char), (∀ c ∈ l, isWs c = true) →
    normalizeWs l = [] := by
  intro l h
  unfold normalizeWs collapseWs trimL
  cases l with
  | nil => rfl
  | cons x xs =>
    have hx : isWs x = true := h x (List.mem_cons_self x xs)
    have hxs : collapseAux true xs = [] :=
      collapseAux_true_allws xs (fun c hc => h c (List.mem_cons_of_mem _ hc))
    have hred : collapseAux false (x :: xs) = [' '] := by
      simp [collapseAux, hx, hxs]
    rw [hred]
    rfl

/-- C8: the Text Normalizer's output never contains two consecutive
whitespace characters and never starts or ends with whitespace (every
maximal whitespace run is collapsed to one space and the ends are trimmed);
an all-whitespace or empty input makes the normalizer fail with its
empty-document error instead of producing a document. -/
theorem normalizer_contract : ∀ l : List Char,
    List.Chain' wsRel (normalizeWs l) ∧
    (∀ c, (normalizeWs l).head? = some c → isWs c = false) ∧
    (∀ c, (normalizeWs l).getLast? = some c → isWs c = false) ∧
    ((∀ c ∈ l, isWs c = true) →
      cleanTextResult l = Except.error "PDF contains no readable text") := by
  intro l
  refine ⟨?_, ?_, ?_, ?_⟩
  · exact trimR_chain (chain'_dropWhile isWs (collapseAux false l) (collapseAux_chain l false).1)
  · intro c h
    have h2 : ((collapseWs l).dropWhile isWs).head? = some c := trimR_head? _ c h
    exact head?_dropWhile isWs (collapseWs l) c h2
  · intro c h
    exact trimR_getLast _ c h
  · intro h
    unfold cleanTextResult
    rw [normalizeWs_allws l h]
    rfl

/-- Witness for C8 at a concrete mixed input and a concrete all-whitespace
input. -/
theorem normalizer_contract_witness :
    List.Chain' wsRel (normalizeWs (' ' :: ' ' :: 'a' :: ' ' :: 'b' :: [' '])) ∧
    isWs 'a' = false ∧
    isWs 'b' = false ∧
    cleanTextResult [' ', ' '] = Except.error "PDF contains no readable text" :=
  ⟨(normalizer_contract (' ' :: ' ' :: 'a' :: ' ' :: 'b' :: [' '])).1,
   (normalizer_contract (' ' :: ' ' :: 'a' :: ' ' :: 'b' :: [' '])).2.1 'a' rfl,
   (normalizer_contract (' ' :: ' ' :: 'a' :: ' ' :: 'b' :: [' '])).2.2.1 'b' rfl,
   (normalizer_contract [' ', ' ']).2.2.2 (by decide)⟩

theorem mkChunks_base (s o : Nat) (text : List Char) (h : text.length ≤ s ∨ s ≤ o) :
    mkChunks s o text = [text] := by
  unfold mkChunks
  rw [dif_pos h]

theorem mkChunks_step (s o : Nat) (text : List Char) (h : ¬(text.length ≤ s ∨ s ≤ o)) :
    mkChunks s o text = text.take s :: mkChunks s o (text.drop (s - o)) := by
  conv_lhs => rw [mkChunks]
  rw [dif_neg h]

theorem dropJoin_mkChunks (s o : Nat) (ho : o < s) : ∀ (text : List Char),
    dropJoin o (mkChunks s o text) = text.drop o := by
  have main : ∀ (n : Nat) (text : List Char), text.length ≤ n →
      dropJoin o (mkChunks s o text) = text.drop o := by
    intro n
    induction n with
    | zero =>
      intro text hlen
      have hnil : text = [] := List.length_eq_zero.mp (Nat.le_zero.mp hlen)
      subst hnil
      rw [mkChunks_base _ _ _ (Or.inl (by simp))]
      simp [dropJoin]
    | succ n ih =>
      intro text hlen
      by_cases hb : text.length ≤ s ∨ s ≤ o
      · rw [mkChunks_base _ _ _ hb]
        simp [dropJoin]
      · rw [mkChunks_step _ _ _ hb]
        push_neg at hb
        obtain ⟨hb1, _⟩ := hb
        simp only [dropJoin]
        rw [ih (text.drop (s - o)) (by simp only [List.length_drop]; omega)]
        rw [List.drop_take]
        rw [List.drop_drop]
        have h1 : s - o + o = s := by omega
        rw [h1]
        have h2 : text.drop s = (text.drop o).drop (s - o) := by
          rw [List.drop_drop]
          congr 1
          omega
        rw [h2, List.take_append_drop]
  intro text
  exact main text.length text le_rfl

theorem deOv_mkChunks (s o : Nat) (ho : o < s) (text : List Char) :
    deOv o (mkChunks s o text) = text := by
  by_cases hb : text.length ≤ s ∨ s ≤ o
  · rw [mkChunks_base _ _ _ hb]
    simp [deOv, dropJoin]
  · rw [mkChunks_step _ _ _ hb]
    simp only [deOv]
    rw [dropJoin_mkChunks s o ho (text.drop (s - o))]
    rw [List.drop_drop]
    have h1 : s - o + o = s := by omega
    rw [h1, List.take_append_drop]

theorem mkChunks_length (s o : Nat) (ho : o < s) : ∀ (text : List Char),
    o < text.length → (mkChunks s o text).length = ceilDiv (text.length - o) (s - o) := by
  have main : ∀ (n : Nat) (text : List Char), text.length ≤ n → o < text.length →
      (mkChunks s o text).length = ceilDiv (text.length - o) (s - o) := by
    intro n
    induction n with
    | zero => intro text hlen hol; omega
    | succ n ih =>
      intro text hlen hol
      by_cases hb : text.length ≤ s ∨ s ≤ o
      · rw [mkChunks_base _ _ _ hb]
        have hle : text.length ≤ s := by
          rcases hb with h | h
          · exact h
          · omega
        unfold ceilDiv
        have h1 : text.length - o + (s - o) - 1 = (text.length - o - 1) + (s - o) := by omega
        rw [h1, Nat.add_div_right _ (by omega), Nat.div_eq_of_lt (by omega)]
        rfl
      · rw [mkChunks_step _ _ _ hb]
        push_neg at hb
        obtain ⟨hb1, _⟩ := hb
        simp only [List.length_cons]
        rw [ih (text.drop (s - o)) (by simp only [List.length_drop]; omega)
            (by simp only [List.length_drop]; omega)]
        unfold ceilDiv
        simp only [List.length_drop]
        have h2 : text.length - o + (s - o) - 1 =
            (text.length - (s - o) - o + (s - o) - 1) + (s - o) := by omega
        rw [h2, Nat.add_div_right _ (by omega)]
  intro text h
  exact main text.length text le_rfl h

/-- C9 (amended): for the spec's fixed-size overlapping Chunker with
overlap < size and non-empty input, concatenating the chunks with overlaps
removed reconstructs the input exactly; an input no longer than one chunk
size yields exactly one chunk; the chunk count equals
ceil((len - overlap)/(size - overlap)) whenever len > overlap, and an input
of length at most the overlap (where that formula would give 0) still
yields exactly one chunk. -/
theorem chunker_contract : ∀ (s o : Nat) (text : List Char), o < s → 0 < text.length →
    deOv o (mkChunks s o text) = text ∧
    (text.length ≤ s → (mkChunks s o text).length = 1) ∧
    (o < text.length → (mkChunks s o text).length = ceilDiv (text.length - o) (s - o)) ∧
    (text.length ≤ o → (mkChunks s o text).length = 1) := by
  intro s o text ho hlen
  refine ⟨deOv_mkChunks s o ho text, ?_, mkChunks_length s o ho text, ?_⟩
  · intro h
    rw [mkChunks_base _ _ _ (Or.inl h)]
    rfl
  · intro h
    rw [mkChunks_base _ _ _ (Or.inl (by omega))]
    rfl

/-- Counterexample to C9 as stated: at input length 100 with the source's
size 1000 and overlap 200, the Chunker yields one chunk but the claim's
formula ceil((len - overlap)/(size - overlap)) gives 0 (both under natural
truncated subtraction and under exact rational ceiling). -/
theorem chunker_count_counterexample :
    (mkChunks 1000 200 (List.replicate 100 'a')).length = 1 ∧
    ceilDiv (100 - 200) (1000 - 200) = 0 ∧
    ⌈((100 : ℚ) - 200) / ((1000 : ℚ) - 200)⌉ = 0 ∧
    (mkChunks 1000 200 (List.replicate 100 'a')).length ≠
      (⌈((100 : ℚ) - 200) / ((1000 : ℚ) - 200)⌉).toNat := by
  have h1 : (mkChunks 1000 200 (List.replicate 100 'a')).length = 1 := by
    rw [mkChunks_base _ _ _ (Or.inl (by simp))]
    rfl
  have h3 : ⌈((100 : ℚ) - 200) / ((1000 : ℚ) - 200)⌉ = 0 := by
    rw [Int.ceil_eq_iff]
    norm_num
  refine ⟨h1, by decide, h3, ?_⟩
  rw [h1, h3]
  decide

/-- Witness for C9 (amended) at size 5, overlap 2, with a 7-character and a
2-character input. -/
theorem chunker_contract_witness :
    deOv 2 (mkChunks 5 2 ("abcdefg".data)) = "abcdefg".data ∧
    (mkChunks 5 2 ("abcdefg".data)).length = ceilDiv ("abcdefg".data.length - 2) (5 - 2) ∧
    (mkChunks 5 2 ("ab".data)).length = 1 := by
  obtain ⟨h1, _, h3, _⟩ := chunker_contract 5 2 ("abcdefg".data) (by decide) (by decide)
  obtain ⟨_, _, _, g4⟩ := chunker_contract 5 2 ("ab".data) (by decide) (by decide)
  exact ⟨h1, h3 (by decide), g4 (by decide)⟩
